import Mathlib

/-!
Verification of `kitty/child.py` (child-process-on-PTY supervisor).

This file gives a shallow embedding of the pure logic of `kitty/child.py`:
the environ block parser, launch classification (`is_prewarmable`), the
environment builder (`final_env`), the foreground resolver
(`get_pid_for_cwd`), the introspection accessors, the signal translator
(`send_signal_for_key`) and the spawn orchestrator (`fork`).  OS calls
(`os.tcgetpgrp`, `/proc` reads, `spawn`, ...) are modelled as oracles whose
results are supplied by structures `OSModel` / `ForkOS`; a Python call that
can raise is modelled with `Option`/`Except`, `none`/`.error` meaning the
call raised.  Python `dict`s are modelled as association lists with
Python's insertion-order update semantics (`dictInsert`).
-/

/-- Python `dict` lookup `d.get(k)`: value of the (unique) binding of `k`. -/
def dictGet {α : Type} [DecidableEq α] {β : Type} : List (α × β) → α → Option β
  | [], _ => none
  | p :: rest, k => if p.1 = k then some p.2 else dictGet rest k

/-- Python `d[k] = v`: update the existing binding in place, else append. -/
def dictInsert {α : Type} [DecidableEq α] {β : Type} : List (α × β) → α → β → List (α × β)
  | [], k, v => [(k, v)]
  | p :: rest, k, v => if p.1 = k then (k, v) :: rest else p :: dictInsert rest k v

/-- Python `del d[k]` / `d.pop(k, None)`: remove the binding of `k` (if any). -/
def dictPop {α : Type} [DecidableEq α] {β : Type} : List (α × β) → α → List (α × β)
  | [], _ => []
  | p :: rest, k => if p.1 = k then rest else p :: dictPop rest k

/-- Python `d.update(other)`: insert every binding of `other` in order. -/
def dictUpdate {α : Type} [DecidableEq α] {β : Type}
    (d other : List (α × β)) : List (α × β) :=
  other.foldl (fun a kv => dictInsert a kv.1 kv.2) d

/-- Keys of an association list, in order. -/
def dictKeys {α β : Type} (d : List (α × β)) : List α := d.map Prod.fst

/-- Smallest index of `c` in the list, if any (model of `str.find` on a
suffix; `none` models Python's `-1`). -/
def findFrom (c : Char) : List Char → Option Nat
  | [] => none
  | x :: xs => if x = c then some 0 else (findFrom c xs).map (fun n => n + 1)

/-- The NUL character terminating each environ record. -/
def nulc : Char := Char.ofNat 0

/-- The `=` separator of an environ record. -/
def eqc : Char := '='

/-- Python `data.find(c, pos)`: smallest index `≥ pos` holding `c`
(`none` for Python's `-1`). -/
def pyFindFrom (data : List Char) (c : Char) (pos : Nat) : Option Nat :=
  (findFrom c (data.drop pos)).map (fun n => n + pos)

/-- Python `data.find(c, pos, stop)`: smallest index in `[pos, stop)`
holding `c` (`none` for Python's `-1`). -/
def pyFindIn (data : List Char) (c : Char) (pos stop : Nat) : Option Nat :=
  (findFrom c ((data.take stop).drop pos)).map (fun n => n + pos)

/-- Python slice `data[i:j]`. -/
def pySlice (data : List Char) (i j : Nat) : List Char :=
  (data.drop i).take (j - i)

/-- The `while True` loop of `parse_environ_block` (child.py lines 126-137).
`fuel` bounds the number of iterations; `pos` advances by at least one per
iteration, so `data.length + 1` units of fuel always suffice (proved by
`parseEnvLoop_eq_parseRecAux` below, which shows the fuelled loop computes
the structural recursion `parseRecAux`). -/
def parseEnvLoop (data : List Char) : Nat → List (String × String) → Nat → List (String × String)
  | 0, ret, _ => ret
  | fuel + 1, ret, pos =>
    match pyFindFrom data nulc pos with
    | none => ret
    | some next_pos =>
      if next_pos ≤ pos then ret
      else
        let ret' :=
          match pyFindIn data eqc pos next_pos with
          | none => ret
          | some equal_pos =>
            if equal_pos > pos then
              dictInsert ret (String.mk (pySlice data pos equal_pos))
                (String.mk (pySlice data (equal_pos + 1) next_pos))
            else ret
        parseEnvLoop data fuel ret' (next_pos + 1)

/-- Model of `parse_environ_block` (child.py lines 119-139): parse a C
environ block into a dictionary. -/
def parse_environ_block (data : String) : List (String × String) :=
  parseEnvLoop data.data (data.data.length + 1) [] 0

/-- Structural form of the parse loop: processes the still-unparsed suffix of
the blob.  `parseEnvLoop data fuel acc pos` computes `parseRecAux (data.drop
pos) acc` (proved below); all further reasoning about the parser goes through
this function. -/
def parseRecAux (rest : List Char) (acc : List (String × String)) : List (String × String) :=
  match h : findFrom nulc rest with
  | none => acc
  | some 0 => acc
  | some (m + 1) =>
    let record := rest.take (m + 1)
    let acc' :=
      match findFrom eqc record with
      | none => acc
      | some 0 => acc
      | some e => dictInsert acc (String.mk (record.take e)) (String.mk (record.drop (e + 1)))
    parseRecAux (rest.drop (m + 2)) acc'
termination_by rest.length
decreasing_by
  have key : ∀ (l : List Char) (k : Nat), findFrom nulc l = some k → k < l.length := by
    intro l
    induction l with
    | nil => intro k hk; simp [findFrom] at hk
    | cons x xs ih =>
      intro k hk
      simp only [findFrom] at hk
      split at hk
      · cases hk; simp
      · cases hx : findFrom nulc xs with
        | none => rw [hx] at hk; simp at hk
        | some n =>
          rw [hx] at hk
          simp only [Option.map_some'] at hk
          cases hk
          have := ih _ hx
          simp
          omega
  have hlt := key rest (m + 1) h
  simp only [List.length_drop]
  omega

/-- Concatenation of NUL-terminated records, the shape of a C environ block. -/
def joinRecords (rs : List (List Char)) : List Char :=
  (rs.map (fun r => r ++ [nulc])).flatten

/-- Record-level description of the parser: process each record in turn,
stopping at the first empty record; a record whose first `=` sits at index
`e ≥ 1` binds the text before it to the text after it (later duplicates
overwrite in place); a record with no `=`, or whose first character is `=`,
adds nothing. -/
def recSpec : List (List Char) → List (String × String) → List (String × String)
  | [], acc => acc
  | r :: rest, acc =>
    if r = [] then acc
    else
      match findFrom eqc r with
      | none => recSpec rest acc
      | some 0 => recSpec rest acc
      | some e => recSpec rest (dictInsert acc (String.mk (r.take e)) (String.mk (r.drop (e + 1))))

/-- Serialization of a parsed mapping back to an environ block: the
concatenation `"".join(f"{k}={v}\0" for k, v in d)` from the spec. -/
def serializeEnv (d : List (String × String)) : String :=
  String.mk (joinRecords (d.map (fun kv => kv.1.data ++ eqc :: kv.2.data)))

/-- A parser output entry: nonempty key holding no `=` and no NUL, value
holding no NUL. -/
def wfEnvEntry (kv : String × String) : Prop :=
  kv.1.data ≠ [] ∧ eqc ∉ kv.1.data ∧ nulc ∉ kv.1.data ∧ nulc ∉ kv.2.data

/-- Every entry of the dictionary is a well-formed parser output entry. -/
def wfEnvDict (d : List (String × String)) : Prop :=
  ∀ kv ∈ d, wfEnvEntry kv

/-- Model of `os.path.basename`: the part after the last `/`. -/
def basename (p : String) : String :=
  String.mk ((p.data.reverse.takeWhile (fun c => decide (c ≠ '/'))).reverse)

/-- Whether the string's first character is `c` (Python `s.startswith(c)`
for a single character, and the `s[:1] in ...` test shape). -/
def strStartsC (c : Char) (s : String) : Bool :=
  match s.data with
  | [] => false
  | x :: _ => decide (x = c)

/-- Model of `is_prewarmable` (child.py lines 191-200).  `none` models the
`IndexError` Python raises at `argv[1][0]` when `argv[1]` is the empty
string (the `argv[1][:1] not in '@+'` guard passes for `""` because the
empty string is a substring of `'@+'`). -/
def is_prewarmable (argv : List String) : Option Bool :=
  if argv.length < 3 ∨ basename (argv.headD "") ≠ "kitty" then some false
  else
    let a1 := argv.getD 1 ""
    if ¬ (a1 = "" ∨ strStartsC '@' a1 = true ∨ strStartsC '+' a1 = true) then some false
    else
      match a1.data with
      | [] => none
      | c :: _ =>
        if c = '@' then some true
        else if a1 = "+" then some (decide (argv.getD 2 "" ≠ "open"))
        else some (decide (a1 ≠ "+open"))

/-- The classification condition as the spec states it: at least 3 argv
elements, basename of `argv[0]` is `kitty`, `argv[1]` starts with `@` or
`+`, excluding the `+open` subcommand forms (`["kitty", "+", "open", ...]`
and `["kitty", "+open", ...]`). -/
def prewarmCond (argv : List String) : Prop :=
  3 ≤ argv.length ∧ basename (argv.headD "") = "kitty" ∧
    (strStartsC '@' (argv.getD 1 "") = true ∨
      (strStartsC '+' (argv.getD 1 "") = true ∧
        ¬(argv.getD 1 "" = "+" ∧ argv.getD 2 "" = "open") ∧ argv.getD 1 "" ≠ "+open"))

/-- An environment value: an ordinary string, or the `DELETE_ENV_VAR`
sentinel (compared by identity in the source, hence a separate
constructor). -/
inductive EnvVal where
  | str (s : String)
  | del
deriving DecidableEq, Repr

/-- The string a value renders as in `f"{k}={v}"` (only `.str` values reach
that point). -/
def envVal_str : EnvVal → String
  | .str s => s
  | .del => ""

/-- Ambient configuration read by `final_env` and `fork`: platform flags,
the cached default environment, options, and the shell-integration mutator
(`modify_shell_environ`, which may rewrite both the environment and argv). -/
structure Params where
  is_macos : Bool
  lc_ctype_before_python : Bool
  lc_ctype_set_by_user : Bool
  default_env : List (String × EnvVal)
  opts_term : String
  kitty_pid : String
  prewarm_socket : String
  terminfo_dir : Option String
  kitty_base_dir : String
  shell_integration_disabled : Bool
  modify_shell_environ : List (String × EnvVal) → List String → List (String × EnvVal) × List String
  shell_path : String
  which : String → Option String

/-- The `Child` state (child.py lines 212-241 plus attributes assigned during
`fork`/`final_env`).  File descriptors are `Int` as in Python. -/
structure Child where
  argv : List String
  cwd : String
  stdin : Option String := none
  env : List (String × EnvVal) := []
  allow_remote_control : Bool := false
  is_clone_launch : String := ""
  child_fd : Option Int := none
  pid : Option Int := none
  forked : Bool := false
  is_prewarmed : Bool := false
  unmodified_argv : List String := []
  final_exe : String := ""
  final_argv0 : String := ""
  terminal_ready_fd : Int := -1

/-- Model of `Child.final_env` (child.py lines 243-276).  Returns the built
environment together with the updated child (`final_env` mutates
`unmodified_argv`, `argv` via `modify_shell_environ`, and
`is_clone_launch`). -/
def Child.final_env (c0 : Child) (p : Params) : List (String × EnvVal) × Child :=
  let env := p.default_env
  let env :=
    if p.is_macos ∧ dictGet env "LC_CTYPE" = some (EnvVal.str "UTF-8")
        ∧ ¬p.lc_ctype_before_python ∧ ¬p.lc_ctype_set_by_user
    then dictPop env "LC_CTYPE" else env
  let env := dictUpdate env c0.env
  let env := dictInsert env "TERM" (EnvVal.str p.opts_term)
  let env := dictInsert env "COLORTERM" (EnvVal.str "truecolor")
  let env := dictInsert env "KITTY_PID" (EnvVal.str p.kitty_pid)
  let env :=
    if ¬c0.is_prewarmed then
      dictInsert (dictInsert env "KITTY_PREWARM_SOCKET" (EnvVal.str p.prewarm_socket))
        "KITTY_PREWARM_SOCKET_REAL_TTY" (EnvVal.str (String.mk (List.replicate 32 ' ')))
    else env
  let env := if c0.cwd ≠ "" then dictInsert env "PWD" (EnvVal.str c0.cwd) else env
  let env :=
    match p.terminfo_dir with
    | some td => dictInsert env "TERMINFO" (EnvVal.str td)
    | none => env
  let env := dictInsert env "KITTY_INSTALLATION_DIR" (EnvVal.str p.kitty_base_dir)
  let c1 : Child := { c0 with unmodified_argv := c0.argv }
  let mutated :=
    if ¬p.shell_integration_disabled then p.modify_shell_environ env c1.argv
    else (env, c1.argv)
  let env := mutated.1
  let c2 : Child := { c1 with argv := mutated.2 }
  let env := env.filter (fun kv => decide (kv.2 ≠ EnvVal.del))
  if c2.is_clone_launch ≠ "" then
    (dictInsert env "KITTY_IS_CLONE_LAUNCH" (EnvVal.str c2.is_clone_launch),
      { c2 with is_clone_launch := "1" })
  else
    (dictPop env "KITTY_IS_CLONE_LAUNCH", c2)

/-- Terminal attributes consulted by `send_signal_for_key`: the local-mode
flags word `t[3]` and the configured control characters. -/
structure TermiosState where
  lflag : Nat
  vintr : Nat
  vsusp : Nat
  vquit : Nat
deriving DecidableEq, Repr

/-- Results of the OS introspection calls used by the accessors: `none`
models the call raising. -/
structure OSModel where
  cmdline_of_pid : Int → Option (List String)
  environ_raw : Int → Option String
  cwd_of_process : Int → Option String
  tcgetpgrp : Int → Option Int
  cached_map : Option (List (Int × List Int))
  group_map : Option (List (Int × List Int))
  cmdline_of_prewarmer : List String
  tcgetattr_fd : Int → Option TermiosState
  tcgetattr_path : String → Option TermiosState

/-- Model of `processes_in_group` (child.py lines 96-103): consult the
scoped cache if set, else a fresh scan (empty on failure), then look the
group up, defaulting to `[]`. -/
def processes_in_group (os : OSModel) (grp : Int) : List Int :=
  let gmap :=
    match os.cached_map with
    | some m => m
    | none => os.group_map.getD []
  (dictGet gmap grp).getD []

/-- Model of `environ_of_process` (child.py lines 142-143). -/
def environ_of_process (os : OSModel) (pid : Int) : Option (List (String × String)) :=
  (os.environ_raw pid).map parse_environ_block

/-- Model of the method `Child.cmdline_of_pid` (child.py lines 350-357). -/
def Child.cmdline_of_pid (c : Child) (os : OSModel) (pid : Int) : List String :=
  let ans := (os.cmdline_of_pid pid).getD []
  if c.pid = some pid ∧ (ans = [] ∨ (c.is_prewarmed ∧ ans = os.cmdline_of_prewarmer))
  then c.argv else ans

/-- Model of the property `Child.cmdline` (child.py lines 379-385): the
originally requested argv when the pid is unset, the OS call fails, or the
OS answer is empty. -/
def Child.cmdline (c : Child) (os : OSModel) : List String :=
  match c.pid with
  | none => c.argv
  | some pid =>
    let r := c.cmdline_of_pid os pid
    if r = [] then c.argv else r

/-- Model of the property `Child.environ` (child.py lines 395-401). -/
def Child.environ (c : Child) (os : OSModel) : List (String × String) :=
  match c.pid with
  | none => []
  | some pid => (environ_of_process os pid).getD []

/-- Model of the property `Child.current_cwd` (child.py lines 403-408). -/
def Child.current_cwd (c : Child) (os : OSModel) : Option String :=
  match c.pid with
  | none => none
  | some pid => os.cwd_of_process pid

/-- A foreground process snapshot (child.py lines 185-188). -/
structure ProcessDesc where
  pid : Int
  cmdline : Option (List String)
  cwd : Option String
deriving DecidableEq, Repr

/-- The local `process_desc` helper (child.py lines 367-373); the `or None`
turns an empty cwd string into `None`. -/
def Child.process_desc (c : Child) (os : OSModel) (pid : Int) : ProcessDesc :=
  { pid := pid
    cmdline := some (c.cmdline_of_pid os pid)
    cwd :=
      match os.cwd_of_process pid with
      | none => none
      | some s => if s = "" then none else some s }

/-- Model of the property `Child.foreground_processes` (child.py lines
359-377). -/
def Child.foreground_processes (c : Child) (os : OSModel) : List ProcessDesc :=
  match c.child_fd with
  | none => []
  | some fd =>
    match os.tcgetpgrp fd with
    | none => []
    | some pgrp =>
      let fps := if 0 ≤ pgrp then processes_in_group os pgrp else []
      fps.map (c.process_desc os)

/-- Model of `Child.get_pid_for_cwd` (child.py lines 410-427): max pid of the
foreground group by default, min when `oldest`, and the child's own pid when
the group cannot be determined or is empty. -/
def Child.get_pid_for_cwd (c : Child) (os : OSModel) (oldest : Bool) : Option Int :=
  match c.child_fd with
  | none => c.pid
  | some fd =>
    match os.tcgetpgrp fd with
    | none => c.pid
    | some pgrp =>
      let fps := if 0 ≤ pgrp then processes_in_group os pgrp else []
      match fps with
      | [] => c.pid
      | x :: xs => some (if oldest then xs.foldl min x else xs.foldl max x)

/-- Model of the property `Child.pid_for_cwd` (child.py lines 429-431). -/
def Child.pid_for_cwd (c : Child) (os : OSModel) : Option Int :=
  c.get_pid_for_cwd os false

/-- Model of the property `Child.foreground_environ` (child.py lines
444-454). -/
def Child.foreground_environ (c : Child) (os : OSModel) : List (String × String) :=
  let fromOwnPid : List (String × String) :=
    match c.pid with
    | none => []
    | some pid2 => (environ_of_process os pid2).getD []
  match c.pid_for_cwd os with
  | none => fromOwnPid
  | some pid =>
    match environ_of_process os pid with
    | some e => e
    | none => fromOwnPid

/-- The `termios.ISIG` local-mode bit (value 1 on POSIX platforms). -/
def ISIG : Nat := 1

/-- `signal.SIGINT`. -/
def SIGINT : Nat := 2

/-- `signal.SIGQUIT`. -/
def SIGQUIT : Nat := 3

/-- `signal.SIGTSTP`. -/
def SIGTSTP : Nat := 20

/-- Terminal-attribute resolution of `send_signal_for_key` (child.py lines
461-466): read attributes from the real tty named by the foreground
environment when present (and absolute), else from the PTY master. -/
def Child.tcgetattr_for_child (c : Child) (os : OSModel) (fd : Int) : Option TermiosState :=
  let tty_name := (dictGet (c.foreground_environ os) "KITTY_PREWARM_SOCKET_REAL_TTY").getD ""
  if tty_name ≠ "" ∧ strStartsC '/' tty_name = true then os.tcgetattr_path tty_name
  else os.tcgetattr_fd fd

/-- Model of `Child.send_signal_for_key` (child.py lines 456-480).  The
result is the returned bool plus the list of `(pgrp, signal)` deliveries
made by `os.killpg`; `none` models a raised exception (tty open /
`tcgetattr` / `tcgetpgrp` failure, none of which is caught). -/
def Child.send_signal_for_key (c : Child) (os : OSModel) (key_num : Nat) :
    Option (Bool × List (Int × Nat)) :=
  match c.child_fd with
  | none => some (false, [])
  | some fd =>
    match c.tcgetattr_for_child os fd with
    | none => none
    | some t =>
      if t.lflag &&& ISIG = 0 then some (false, [])
      else if key_num = t.vintr then
        (os.tcgetpgrp fd).map (fun pgrp => (true, [(pgrp, SIGINT)]))
      else if key_num = t.vsusp then
        (os.tcgetpgrp fd).map (fun pgrp => (true, [(pgrp, SIGTSTP)]))
      else if key_num = t.vquit then
        (os.tcgetpgrp fd).map (fun pgrp => (true, [(pgrp, SIGQUIT)]))
      else some (false, [])

/-- Observable side effects of `Child.fork`, in program order. -/
inductive Eff where
  | openptyE
  | set_inheritableE (fd : Int) (b : Bool)
  | set_iutf8E (fd : Int)
  | pipeE
  | build_envE
  | spawnE (exe : String) (cwd : String) (argv : List String) (env : List String)
      (master slave stdin_read stdin_write ready_read ready_write : Int)
  | prewarmE (slave : Int) (argv : List String) (cwd : String)
  | closeE (fd : Int)
  | thread_writeE (fd : Int)
  | set_blockingE (fd : Int) (b : Bool)
deriving DecidableEq, Repr

/-- Oracle for the OS calls made by `Child.fork`: PTY and pipe allocation
results, and the outcome of the spawn / prewarm-attach primitives (`.error`
models the call raising). -/
structure ForkOS where
  openpty : Except Unit (Int × Int)
  ready_pipe : Int × Int
  stdin_pipe : Int × Int
  spawn_result : Except Unit Int
  prewarm_result : Except Unit Int
  params : Params

/-- The common tail of `Child.fork` after the child process exists (child.py
lines 324-335): close the slave, record pid and master fd, wire up the
stdin and readiness pipes when not prewarmed, and set the master
non-blocking. -/
def forkFinish (c0 : Child) (master slave : Int) (pid : Int) (prew : Bool)
    (stdin_read stdin_write ready_read ready_write : Int)
    (stdin : Option String) (effs : List Eff) :
    Except Unit (Option Int) × Child × List Eff :=
  let effs := effs ++ [.closeE slave]
  let c1 : Child := { c0 with pid := some pid, child_fd := some master }
  let step :=
    if ¬prew then
      let effs :=
        match stdin with
        | some _ => effs ++ [.closeE stdin_read, .thread_writeE stdin_write, .closeE ready_read]
        | none => effs ++ [.closeE ready_read]
      (({ c1 with terminal_ready_fd := ready_write } : Child), effs)
    else (c1, effs)
  let c2 := step.1
  let effs := step.2 ++ [.set_blockingE master false]
  (Except.ok (some pid), c2, effs)

/-- Executable-resolution and spawn/prewarm stage of `fork` (child.py lines
296-335), operating on the values prepared by the earlier PTY/pipe/env
stage. -/
def forkSpawnStage (prew : Bool) (os : ForkOS) (master slave : Int)
    (stdin : Option String) (effs1 : List Eff)
    (ready_read ready_write stdin_read stdin_write : Int)
    (env : List String) (c4 : Child) : Except Unit (Option Int) × Child × List Eff :=
  match c4.argv with
  | [] => (.error (), c4, effs1)
  | exe :: argvRest =>
    let argv0 :=
      if os.params.is_macos ∧ exe = os.params.shell_path
      then "-" ++ basename exe else exe
    let argvM := argv0 :: argvRest
    let c5 : Child :=
      { c4 with final_exe := (os.params.which exe).getD exe, final_argv0 := argv0 }
    if prew then
      let fe := c5.final_env os.params
      let c6 := fe.2
      let effs2 := effs1 ++ [.build_envE, .prewarmE slave c6.argv c6.cwd]
      match os.prewarm_result with
      | .error _ => (.error (), c6, effs2)
      | .ok pid =>
        forkFinish c6 master slave pid true stdin_read stdin_write ready_read ready_write
          stdin effs2
    else
      let effs2 := effs1 ++
        [.spawnE c5.final_exe c5.cwd argvM env master slave stdin_read stdin_write
          ready_read ready_write]
      match os.spawn_result with
      | .error _ => (.error (), c5, effs2)
      | .ok pid =>
        forkFinish c5 master slave pid false stdin_read stdin_write ready_read ready_write
          stdin effs2

/-- Body of `Child.fork` after the `forked` flag has been set (child.py
lines 281-335): everything the first call does once past the idempotence
guard. -/
def Child.forkBody (c1 : Child) (os : ForkOS) : Except Unit (Option Int) × Child × List Eff :=
  match os.openpty with
    | .error _ => (.error (), c1, [.openptyE])
    | .ok (master, slave) =>
      let effs0 : List Eff :=
        [.openptyE, .set_inheritableE slave true, .set_inheritableE master false,
          .set_iutf8E master]
      let stdin := c1.stdin
      let c2 : Child := { c1 with stdin := none }
      match is_prewarmable c2.argv with
      | none => (.error (), c2, effs0)
      | some prew =>
        let c3 : Child := { c2 with is_prewarmed := prew }
        let pre : List Eff × Int × Int × Int × Int × List String × Child :=
          if prew then (effs0, (-1 : Int), (-1 : Int), (-1 : Int), (-1 : Int), ([] : List String), c3)
          else
            let rr := os.ready_pipe.1
            let rw := os.ready_pipe.2
            let e1 := effs0 ++ [.pipeE, .set_inheritableE rw false, .set_inheritableE rr true]
            let pipes : List Eff × Int × Int :=
              match stdin with
              | some _ =>
                let sr := os.stdin_pipe.1
                let sw := os.stdin_pipe.2
                (e1 ++ [.pipeE, .set_inheritableE sw false, .set_inheritableE sr true], sr, sw)
              | none => (e1, (-1 : Int), (-1 : Int))
            let fe := c3.final_env os.params
            (pipes.1 ++ [.build_envE], rr, rw, pipes.2.1, pipes.2.2,
              fe.1.map (fun kv => kv.1 ++ "=" ++ envVal_str kv.2), fe.2)
        forkSpawnStage prew os master slave stdin pre.1 pre.2.1 pre.2.2.1 pre.2.2.2.1
          pre.2.2.2.2.1 pre.2.2.2.2.2.1 pre.2.2.2.2.2.2

/-- Model of `Child.fork` (child.py lines 278-335).  Returns the Python
return value (`.ok none` for the second-call no-op, `.ok (some pid)` on
success, `.error ()` when an uncaught exception propagates), the updated
child, and the ordered list of OS side effects performed.  The `forked`
flag is set before anything else, so even a first call that raises leaves
the child marked `forked`. -/
def Child.fork (c0 : Child) (os : ForkOS) : Except Unit (Option Int) × Child × List Eff :=
  if c0.forked then (Except.ok none, c0, [])
  else Child.forkBody { c0 with forked := true } os

/-- A shell-integration mutator that changes nothing, for concrete examples. -/
def idMutator : List (String × EnvVal) → List String → List (String × EnvVal) × List String :=
  fun e a => (e, a)

/-- Concrete `Params` used by the witnesses. -/
def pDemo : Params :=
  { is_macos := false
    lc_ctype_before_python := false
    lc_ctype_set_by_user := false
    default_env := [("FOO", EnvVal.str "1")]
    opts_term := "xterm-kitty"
    kitty_pid := "100"
    prewarm_socket := "sock"
    terminfo_dir := none
    kitty_base_dir := "/base"
    shell_integration_disabled := true
    modify_shell_environ := idMutator
    shell_path := "/bin/sh"
    which := fun _ => none }

/-- Concrete child with a set master fd, for the foreground-resolver witness. -/
def cDemo6 : Child :=
  { argv := ["bash"], cwd := "/", child_fd := some 1, pid := some 42 }

/-- Concrete OS oracle whose terminal foreground group 5 holds pids
101, 150, 99. -/
def osDemo6 : OSModel :=
  { cmdline_of_pid := fun _ => none
    environ_raw := fun _ => none
    cwd_of_process := fun _ => none
    tcgetpgrp := fun fd => if fd = 1 then some 5 else none
    cached_map := some [(5, [101, 150, 99])]
    group_map := none
    cmdline_of_prewarmer := [""]
    tcgetattr_fd := fun _ => none
    tcgetattr_path := fun _ => none }

/-- Concrete never-launched child, for the own-pid-fallback witness. -/
def cDemo10 : Child := { argv := ["vim"], cwd := "/tmp" }

/-- Concrete child for the introspection-fallback witness. -/
def cDemo9 : Child :=
  { argv := ["nvim", "file"], cwd := "/home", child_fd := some 7, pid := some 31 }

/-- OS oracle on which every introspection call raises. -/
def osFail : OSModel :=
  { cmdline_of_pid := fun _ => none
    environ_raw := fun _ => none
    cwd_of_process := fun _ => none
    tcgetpgrp := fun _ => none
    cached_map := none
    group_map := none
    cmdline_of_prewarmer := [""]
    tcgetattr_fd := fun _ => none
    tcgetattr_path := fun _ => none }

/-- Terminal attributes with ISIG enabled and the usual control
characters (VINTR = 3, VSUSP = 26, VQUIT = 28). -/
def tDemoOn : TermiosState := { lflag := 1, vintr := 3, vsusp := 26, vquit := 28 }

/-- Concrete OS oracle for the signal-translator witness: attributes come
from the PTY master (no real-tty override), foreground group is 7. -/
def osDemo8 : OSModel :=
  { cmdline_of_pid := fun _ => none
    environ_raw := fun _ => none
    cwd_of_process := fun _ => none
    tcgetpgrp := fun fd => if fd = 2 then some 7 else none
    cached_map := none
    group_map := none
    cmdline_of_prewarmer := [""]
    tcgetattr_fd := fun fd => if fd = 2 then some tDemoOn else none
    tcgetattr_path := fun _ => none }

/-- Concrete child for the signal-translator witness. -/
def cDemo8 : Child :=
  { argv := ["bash"], cwd := "/", child_fd := some 2, pid := some 9 }

/-- Concrete fork oracle for the launch-idempotence witness. -/
def osDemo1 : ForkOS :=
  { openpty := .ok (3, 4)
    ready_pipe := (5, 6)
    stdin_pipe := (8, 9)
    spawn_result := .ok 77
    prewarm_result := .ok 88
    params := pDemo }

/-- Concrete not-yet-forked child for the launch-idempotence witness. -/
def cDemo1 : Child := { argv := ["ls", "-l"], cwd := "/" }

/-- Concrete child for the environment-builder example: per-child override
marks `FOO` (present in the defaults) for deletion. -/
def cDemo7 : Child := { argv := ["bash"], cwd := "/", env := [("FOO", EnvVal.del)] }

theorem findFrom_lt_length {c : Char} : ∀ {l : List Char} {m : Nat},
    findFrom c l = some m → m < l.length := by
  intro l
  induction l with
  | nil => intro m h; simp [findFrom] at h
  | cons x xs ih =>
    intro m h
    simp only [findFrom] at h
    split at h
    · cases h; simp
    · cases hx : findFrom c xs with
      | none => rw [hx] at h; simp at h
      | some n =>
        rw [hx] at h
        simp only [Option.map_some'] at h
        cases h
        have := ih hx
        simp
        omega

theorem findFrom_not_mem_take {c : Char} : ∀ {l : List Char} {m : Nat},
    findFrom c l = some m → c ∉ l.take m := by
  intro l
  induction l with
  | nil => intro m h; simp [findFrom] at h
  | cons x xs ih =>
    intro m h
    simp only [findFrom] at h
    split at h
    · cases h; simp
    · cases hx : findFrom c xs with
      | none => rw [hx] at h; simp at h
      | some n =>
        rw [hx] at h
        simp only [Option.map_some'] at h
        cases h
        rename_i hxc
        simp only [List.take_succ_cons, List.mem_cons]
        rintro (rfl | hm)
        · exact hxc rfl
        · exact ih hx hm

theorem findFrom_none {c : Char} : ∀ {l : List Char},
    findFrom c l = none → c ∉ l := by
  intro l
  induction l with
  | nil => intro _; simp
  | cons x xs ih =>
    intro h
    simp only [findFrom] at h
    split at h
    · simp at h
    · rename_i hxc
      simp only [Option.map_eq_none'] at h
      simp only [List.mem_cons]
      rintro (rfl | hm)
      · exact hxc rfl
      · exact ih h hm

theorem findFrom_append_of_not_mem {c : Char} {l : List Char} (h : c ∉ l) :
    ∀ t, findFrom c (l ++ t) = (findFrom c t).map (fun n => n + l.length) := by
  induction l with
  | nil => intro t; simp
  | cons x xs ih =>
    intro t
    simp only [List.mem_cons, not_or] at h
    have hxc : ¬ x = c := fun hh => h.1 hh.symm
    show findFrom c (x :: (xs ++ t)) = _
    simp only [findFrom, if_neg hxc]
    rw [ih h.2 t]
    cases findFrom c t with
    | none => simp
    | some n =>
      simp only [Option.map_some', Option.some.injEq, List.length_cons]
      omega

theorem findFrom_append_cons {c : Char} {l : List Char} (h : c ∉ l) (t : List Char) :
    findFrom c (l ++ c :: t) = some l.length := by
  rw [findFrom_append_of_not_mem h]
  simp [findFrom]

theorem parseEnvLoop_eq_parseRecAux :
    ∀ (fuel : Nat) (data : List Char) (ret : List (String × String)) (pos : Nat),
      data.length - pos < fuel →
      parseEnvLoop data fuel ret pos = parseRecAux (data.drop pos) ret := by
  intro fuel
  induction fuel with
  | zero => intro data ret pos h; omega
  | succ fuel ih =>
    intro data ret pos h
    rw [parseRecAux]
    simp only [parseEnvLoop]
    have hpf : pyFindFrom data nulc pos = (findFrom nulc (data.drop pos)).map (fun n => n + pos) := rfl
    rw [hpf]
    cases hf : findFrom nulc (data.drop pos) with
    | none => simp
    | some m =>
      have hmlen : m < data.length - pos := by
        have := findFrom_lt_length hf
        simpa [List.length_drop] using this
      cases m with
      | zero => simp
      | succ m' =>
        simp only [Option.map_some']
        rw [if_neg (by omega)]
        have hrecord : (data.take (m' + 1 + pos)).drop pos = (data.drop pos).take (m' + 1) := by
          rw [List.drop_take]
          congr 1
          omega
        have hfin : pyFindIn data eqc pos (m' + 1 + pos)
            = (findFrom eqc ((data.drop pos).take (m' + 1))).map (fun n => n + pos) := by
          unfold pyFindIn
          rw [hrecord]
        have hih : parseEnvLoop data fuel
              (match pyFindIn data eqc pos (m' + 1 + pos) with
               | none => ret
               | some equal_pos =>
                 if equal_pos > pos then
                   dictInsert ret (String.mk (pySlice data pos equal_pos))
                     (String.mk (pySlice data (equal_pos + 1) (m' + 1 + pos)))
                 else ret) (m' + 1 + pos + 1)
            = parseRecAux (data.drop (m' + 1 + pos + 1)) _ :=
          ih data _ (m' + 1 + pos + 1) (by omega)
        rw [hih]
        have hdrop : (data.drop pos).drop (m' + 2) = data.drop (m' + 1 + pos + 1) := by
          rw [List.drop_drop]
          congr 1
          omega
        rw [← hdrop]
        congr 1
        rw [hfin]
        cases he : findFrom eqc ((data.drop pos).take (m' + 1)) with
        | none => simp
        | some e =>
          have helen : e < m' + 1 := by
            have := findFrom_lt_length he
            simp only [List.length_take] at this
            omega
          cases e with
          | zero => simp
          | succ e' =>
            simp only [Option.map_some']
            rw [if_pos (by omega)]
            have hkey : pySlice data pos (e' + 1 + pos) = ((data.drop pos).take (m' + 1)).take (e' + 1) := by
              unfold pySlice
              rw [List.take_take]
              have : e' + 1 + pos - pos = e' + 1 := by omega
              rw [this, Nat.min_eq_left (by omega)]
            have hval : pySlice data (e' + 1 + pos + 1) (m' + 1 + pos)
                = ((data.drop pos).take (m' + 1)).drop (e' + 1 + 1) := by
              unfold pySlice
              rw [List.drop_take, List.drop_drop]
              congr 1
              · omega
              · congr 1
                omega
            rw [hkey, hval]

/-- The parser, restated as the structural recursion over the unparsed suffix. -/
theorem parse_environ_block_eq_parseRecAux (s : String) :
    parse_environ_block s = parseRecAux s.data [] := by
  unfold parse_environ_block
  rw [parseEnvLoop_eq_parseRecAux (s.data.length + 1) s.data [] 0 (by omega)]
  rfl

theorem parseRecAux_joinRecords :
    ∀ (rs : List (List Char)) (acc : List (String × String)),
      (∀ r ∈ rs, nulc ∉ r) →
      parseRecAux (joinRecords rs) acc = recSpec rs acc := by
  intro rs
  induction rs with
  | nil =>
    intro acc _
    rw [parseRecAux]
    rfl
  | cons r rest ih =>
    intro acc hnul
    have hr : nulc ∉ r := hnul r (by simp)
    have hrest : ∀ x ∈ rest, nulc ∉ x := fun x hx => hnul x (by simp [hx])
    have hjoin : joinRecords (r :: rest) = r ++ nulc :: joinRecords rest := by
      simp [joinRecords]
    rw [hjoin, parseRecAux]
    rw [findFrom_append_cons hr (joinRecords rest)]
    split
    · rename_i hnone
      simp at hnone
    · rename_i hzero
      simp only [Option.some.injEq] at hzero
      have : r = [] := List.length_eq_zero.mp hzero
      simp [recSpec, this]
    · rename_i m hsucc
      simp only [Option.some.injEq] at hsucc
      have hlen : r.length = m + 1 := hsucc
      have htake : (r ++ nulc :: joinRecords rest).take (m + 1) = r := by
        rw [← hlen, List.take_left]
      have hdrop : (r ++ nulc :: joinRecords rest).drop (m + 2) = joinRecords rest := by
        have h2 : r ++ nulc :: joinRecords rest = (r ++ [nulc]) ++ joinRecords rest := by simp
        have h3 : (r ++ [nulc]).length = m + 2 := by simp [hlen]
        rw [h2, ← h3, List.drop_left]
      rw [htake, hdrop]
      have hne : r ≠ [] := by
        intro hr0
        rw [hr0] at hlen
        simp at hlen
      rw [recSpec.eq_def]
      simp only [if_neg hne]
      cases he : findFrom eqc r with
      | none => exact ih acc hrest
      | some e =>
        cases e with
        | zero => exact ih acc hrest
        | succ e' => exact ih _ hrest

/-- Claim C2: `parse_environ_block` is total (it is a Lean function, returning
a mapping for every input string) and computes the documented results on the
three example blocks, skipping the record with no `=`. -/
theorem parse_environ_block_total_and_examples :
    (∀ s : String, ∃ d : List (String × String), parse_environ_block s = d) ∧
    parse_environ_block "A=1\x00B=2\x00" = [("A", "1"), ("B", "2")] ∧
    parse_environ_block "A=1\x00GARBAGE\x00B=2\x00" = [("A", "1"), ("B", "2")] ∧
    parse_environ_block "" = [] :=
  ⟨fun s => ⟨parse_environ_block s, rfl⟩, by decide, by decide, by decide⟩

/-- Claim C4 counterexample: the NUL-terminated record `=x` contains an `=`,
yet `parse_environ_block` adds no entry for it — the claimed entry would
have key `""` (text before the first `=`) and value `"x"`, but the code
requires the first `=` to occur strictly after the record start
(`equal_pos > pos`), so the record is dropped and the result is empty. -/
theorem parse_environ_block_leading_eq_dropped :
    parse_environ_block "=x\x00" = [] ∧
    dictGet (parse_environ_block "=x\x00") "" = none :=
  ⟨by decide, by decide⟩

/-- Claim C4 (amended): for every block built from NUL-terminated records,
the parser behaves per record as `recSpec`: it stops at the first empty
record; a record whose first `=` occurs at index `e ≥ 1` adds the entry
mapping the text before the first `=` to the text after it, later duplicate
keys overwriting earlier ones in place; records with no `=` at all, or with
`=` as their first character, add no entry. -/
theorem parse_environ_block_records (rs : List (List Char))
    (h : ∀ r ∈ rs, nulc ∉ r) :
    parse_environ_block (String.mk (joinRecords rs)) = recSpec rs [] := by
  rw [parse_environ_block_eq_parseRecAux]
  exact parseRecAux_joinRecords rs [] h

theorem parse_environ_block_records_witness :
    (∀ r ∈ [['A', '=', '1'], ['G'], ['X', '=', 'x'], ['B', '=', '2']], nulc ∉ r) ∧
    parse_environ_block
        (String.mk (joinRecords [['A', '=', '1'], ['G'], ['X', '=', 'x'], ['B', '=', '2']]))
      = recSpec [['A', '=', '1'], ['G'], ['X', '=', 'x'], ['B', '=', '2']] [] :=
  ⟨by decide, parse_environ_block_records _ (by decide)⟩

theorem mem_dictInsert {α : Type} [DecidableEq α] {β : Type} :
    ∀ {d : List (α × β)} {k : α} {v : β} {x : α × β},
      x ∈ dictInsert d k v → x = (k, v) ∨ x ∈ d := by
  intro d
  induction d with
  | nil =>
    intro k v x hx
    simp [dictInsert] at hx
    exact Or.inl hx
  | cons p rest ih =>
    intro k v x hx
    simp only [dictInsert] at hx
    split at hx
    · rcases List.mem_cons.mp hx with h1 | h2
      · exact Or.inl h1
      · exact Or.inr (List.mem_cons_of_mem p h2)
    · rcases List.mem_cons.mp hx with h1 | h2
      · exact Or.inr (h1 ▸ List.mem_cons_self p rest)
      · rcases ih h2 with h3 | h4
        · exact Or.inl h3
        · exact Or.inr (List.mem_cons_of_mem p h4)

theorem dictInsert_of_not_mem {α : Type} [DecidableEq α] {β : Type} :
    ∀ {d : List (α × β)} {k : α} (v : β),
      k ∉ dictKeys d → dictInsert d k v = d ++ [(k, v)] := by
  intro d
  induction d with
  | nil => intro k v _; rfl
  | cons p rest ih =>
    intro k v hk
    simp only [dictKeys, List.map_cons, List.mem_cons, not_or] at hk
    have hne : ¬ p.1 = k := fun hh => hk.1 hh.symm
    simp only [dictInsert, if_neg hne, List.cons_append, List.cons.injEq, true_and]
    exact ih v (by simpa [dictKeys] using hk.2)

theorem dictKeys_dictInsert_of_mem {α : Type} [DecidableEq α] {β : Type} :
    ∀ {d : List (α × β)} {k : α} (v : β),
      k ∈ dictKeys d → dictKeys (dictInsert d k v) = dictKeys d := by
  intro d
  induction d with
  | nil => intro k v hk; simp [dictKeys] at hk
  | cons p rest ih =>
    intro k v hk
    simp only [dictInsert]
    split
    · rename_i hpk
      simp [dictKeys, hpk]
    · rename_i hpk
      simp only [dictKeys, List.map_cons] at hk ⊢
      rcases List.mem_cons.mp hk with h1 | h2
      · exact absurd h1.symm hpk
      · rw [show (dictInsert rest k v).map Prod.fst = dictKeys (dictInsert rest k v) from rfl,
          ih v h2]
        rfl

theorem nodup_dictKeys_dictInsert {α : Type} [DecidableEq α] {β : Type}
    {d : List (α × β)} {k : α} (v : β) (hnd : (dictKeys d).Nodup) :
    (dictKeys (dictInsert d k v)).Nodup := by
  by_cases hk : k ∈ dictKeys d
  · rw [dictKeys_dictInsert_of_mem v hk]
    exact hnd
  · rw [dictInsert_of_not_mem v hk]
    simp only [dictKeys, List.map_append, List.map_cons, List.map_nil]
    rw [List.nodup_append]
    refine ⟨hnd, List.nodup_singleton k, ?_⟩
    intro a ha hb
    simp only [List.mem_singleton] at hb
    exact hk (hb ▸ ha)

theorem dictGet_mem {α : Type} [DecidableEq α] {β : Type} :
    ∀ {d : List (α × β)} {k : α} {v : β}, dictGet d k = some v → (k, v) ∈ d := by
  intro d
  induction d with
  | nil => intro k v h; simp [dictGet] at h
  | cons p rest ih =>
    intro k v h
    simp only [dictGet] at h
    split at h
    · rename_i hpk
      cases h
      rw [← hpk]
      exact List.mem_cons_self p rest
    · exact List.mem_cons_of_mem p (ih h)

theorem parseRecAux_wf_nodup :
    ∀ (n : Nat) (rest : List Char) (acc : List (String × String)),
      rest.length ≤ n → wfEnvDict acc → (dictKeys acc).Nodup →
      wfEnvDict (parseRecAux rest acc) ∧ (dictKeys (parseRecAux rest acc)).Nodup := by
  intro n
  induction n with
  | zero =>
    intro rest acc hlen hwf hnd
    have : rest = [] := List.length_eq_zero.mp (Nat.le_zero.mp hlen)
    subst this
    rw [parseRecAux]
    exact ⟨hwf, hnd⟩
  | succ n ih =>
    intro rest acc hlen hwf hnd
    rw [parseRecAux]
    split
    · exact ⟨hwf, hnd⟩
    · exact ⟨hwf, hnd⟩
    · rename_i m hf
      have hmlen : m + 1 < rest.length := findFrom_lt_length hf
      have hrec : (rest.drop (m + 2)).length ≤ n := by
        simp only [List.length_drop]
        omega
      have hnulrec : nulc ∉ rest.take (m + 1) := findFrom_not_mem_take hf
      dsimp only
      split
      · exact ih _ _ hrec hwf hnd
      · exact ih _ _ hrec hwf hnd
      · rename_i e hne0 he
        refine ih _ _ hrec ?_ (nodup_dictKeys_dictInsert _ hnd)
        intro kv hkv
        rcases mem_dictInsert hkv with h1 | h2
        · subst h1
          have helen : e < (rest.take (m + 1)).length := findFrom_lt_length he
          have hene : e ≠ 0 := fun habs => hne0 habs
          refine ⟨?_, findFrom_not_mem_take he, ?_, ?_⟩
          · intro habs
            have hlen0 : ((rest.take (m + 1)).take e).length = 0 := by
              rw [show String.data (String.mk ((rest.take (m + 1)).take e))
                  = (rest.take (m + 1)).take e from rfl] at habs
              rw [habs]
              rfl
            rw [List.length_take] at hlen0
            omega
          · intro habs
            exact hnulrec (List.take_subset _ _ habs)
          · intro habs
            exact hnulrec (List.drop_subset _ _ habs)
        · exact hwf kv h2

theorem recSpec_serialized :
    ∀ (d acc : List (String × String)),
      wfEnvDict d →
      recSpec (d.map (fun kv => kv.1.data ++ eqc :: kv.2.data)) acc
        = d.foldl (fun a kv => dictInsert a kv.1 kv.2) acc := by
  intro d
  induction d with
  | nil => intro acc _; rfl
  | cons kv rest ih =>
    intro acc hwf
    obtain ⟨hk0, hkeq, _, _⟩ := hwf kv (List.mem_cons_self kv rest)
    have hwfrest : wfEnvDict rest := fun x hx => hwf x (List.mem_cons_of_mem kv hx)
    simp only [List.map_cons, List.foldl_cons]
    rw [recSpec.eq_def]
    have hne : kv.1.data ++ eqc :: kv.2.data ≠ [] := by simp
    simp only [if_neg hne]
    rw [findFrom_append_cons hkeq]
    split
    · rename_i h0
      simp at h0
    · rename_i h0
      simp only [Option.some.injEq] at h0
      exact absurd (List.length_eq_zero.mp h0) hk0
    · rename_i e hne0 hesome
      simp only [Option.some.injEq] at hesome
      have htake : (kv.1.data ++ eqc :: kv.2.data).take e = kv.1.data := by
        rw [← hesome, List.take_left]
      have hdrop : (kv.1.data ++ eqc :: kv.2.data).drop (e + 1) = kv.2.data := by
        have h2 : kv.1.data ++ eqc :: kv.2.data = (kv.1.data ++ [eqc]) ++ kv.2.data := by simp
        have h3 : (kv.1.data ++ [eqc]).length = e + 1 := by simp [← hesome]
        rw [h2, ← h3, List.drop_left]
      rw [htake, hdrop]
      have hmk1 : String.mk kv.1.data = kv.1 := rfl
      have hmk2 : String.mk kv.2.data = kv.2 := rfl
      rw [hmk1, hmk2]
      exact ih _ hwfrest

theorem foldl_dictInsert_fresh :
    ∀ (d acc : List (String × String)),
      (dictKeys d).Nodup → (∀ k ∈ dictKeys d, k ∉ dictKeys acc) →
      d.foldl (fun a kv => dictInsert a kv.1 kv.2) acc = acc ++ d := by
  intro d
  induction d with
  | nil => intro acc _ _; simp
  | cons kv rest ih =>
    intro acc hnd hdisj
    have hcons : dictKeys (kv :: rest) = kv.1 :: dictKeys rest := rfl
    rw [hcons] at hnd hdisj
    obtain ⟨hhead, hnd'⟩ := List.nodup_cons.mp hnd
    simp only [List.foldl_cons]
    have hk1 : kv.1 ∉ dictKeys acc := hdisj kv.1 (List.mem_cons_self _ _)
    rw [dictInsert_of_not_mem kv.2 hk1]
    have happ : dictKeys (acc ++ [(kv.1, kv.2)]) = dictKeys acc ++ [kv.1] := by
      simp [dictKeys]
    have hdisj' : ∀ k ∈ dictKeys rest, k ∉ dictKeys (acc ++ [(kv.1, kv.2)]) := by
      intro k hk
      rw [happ]
      intro hmem
      rcases List.mem_append.mp hmem with h1 | h2
      · exact hdisj k (List.mem_cons_of_mem _ hk) h1
      · rw [List.mem_singleton] at h2
        exact hhead (h2 ▸ hk)
    rw [ih _ hnd' hdisj']
    simp

/-- Claim C3: re-serializing the parsed mapping as `KEY=VALUE\0` records and
parsing again yields exactly the parsed mapping — parse after serialize is
the identity on the image of parse, for every input string, records without
`=` having been dropped by the first parse. -/
theorem parse_serialize_parse (s : String) :
    parse_environ_block (serializeEnv (parse_environ_block s)) = parse_environ_block s := by
  have hbase := parseRecAux_wf_nodup s.data.length s.data [] (Nat.le_refl _)
    (fun kv hkv => absurd hkv (List.not_mem_nil kv)) (by simp [dictKeys])
  rw [← parse_environ_block_eq_parseRecAux] at hbase
  obtain ⟨hwf, hnd⟩ := hbase
  have hrecsnul : ∀ r ∈ (parse_environ_block s).map (fun kv => kv.1.data ++ eqc :: kv.2.data),
      nulc ∉ r := by
    intro r hr
    simp only [List.mem_map] at hr
    obtain ⟨kv, hkv, rfl⟩ := hr
    obtain ⟨_, _, hknul, hvnul⟩ := hwf kv hkv
    intro hmem
    rcases List.mem_append.mp hmem with h1 | h2
    · exact hknul h1
    · rcases List.mem_cons.mp h2 with h3 | h4
      · exact (by decide : nulc ≠ eqc) h3
      · exact hvnul h4
  have h1 : parse_environ_block (serializeEnv (parse_environ_block s))
      = recSpec ((parse_environ_block s).map (fun kv => kv.1.data ++ eqc :: kv.2.data)) [] := by
    rw [parse_environ_block_eq_parseRecAux]
    exact parseRecAux_joinRecords _ [] hrecsnul
  rw [h1, recSpec_serialized _ [] hwf,
    foldl_dictInsert_fresh _ [] hnd (by intro k _; simp [dictKeys])]
  simp

/-- Claim C5: `is_prewarmable` returns `True` exactly for argv sequences
with at least 3 elements whose `argv[0]` has basename `kitty` and whose
`argv[1]` starts with `@` or `+`, excluding the `+open` subcommand forms
(`argv[1] = "+"` with `argv[2] = "open"`, or `argv[1] = "+open"`); in
particular on the four documented examples. -/
theorem is_prewarmable_characterisation :
    (∀ argv : List String, is_prewarmable argv = some true ↔ prewarmCond argv) ∧
    is_prewarmable ["kitty", "@", "ls"] = some true ∧
    is_prewarmable ["kitty", "+", "open", "/tmp"] = some false ∧
    is_prewarmable ["kitty", "+open", "/tmp"] = some false ∧
    is_prewarmable ["bash"] = some false := by
  refine ⟨?_, by decide, by decide, by decide, by decide⟩
  intro argv
  rw [is_prewarmable.eq_def]
  unfold prewarmCond
  split
  · rename_i h1
    constructor
    · intro hh
      simp at hh
    · rintro ⟨hl, hb, _⟩
      rcases h1 with h | h
      · omega
      · exact absurd hb h
  · rename_i h1
    push_neg at h1
    obtain ⟨hl, hb⟩ := h1
    dsimp only
    set a1 := argv.getD 1 "" with ha1
    split
    · rename_i h2
      constructor
      · intro hh
        simp at hh
      · rintro ⟨_, _, hs | ⟨hs, _, _⟩⟩
        · exact absurd (Or.inr (Or.inl hs)) h2
        · exact absurd (Or.inr (Or.inr hs)) h2
    · rename_i h2
      rw [not_not] at h2
      split
      · rename_i hd
        constructor
        · intro hh
          simp at hh
        · rintro ⟨_, _, hs | ⟨hs, _, _⟩⟩ <;>
            · rw [strStartsC.eq_def, hd] at hs
              simp at hs
      · rename_i c tail hd
        split
        · rename_i hc
          constructor
          · intro _
            refine ⟨Nat.le_of_not_lt ?_, hb, Or.inl ?_⟩
            · intro habs
              omega
            · rw [strStartsC.eq_def, hd]
              simp [hc]
          · intro _
            rfl
        · rename_i hc
          split
          · rename_i hp
            constructor
            · intro hh
              simp only [Option.some.injEq, decide_eq_true_eq] at hh
              refine ⟨by omega, hb, Or.inr ⟨?_, ?_, ?_⟩⟩
              · rw [hp]
                decide
              · rintro ⟨_, hop⟩
                exact hh hop
              · rw [hp]
                decide
            · rintro ⟨_, _, hs | ⟨_, hno, _⟩⟩
              · rw [hp] at hs
                exact absurd hs (by decide)
              · have hop : argv.getD 2 "" ≠ "open" := fun hopen => hno ⟨hp, hopen⟩
                simp only [Option.some.injEq, decide_eq_true_eq]
                exact hop
          · rename_i hp
            have hane : a1 ≠ "" := by
              intro habs
              rw [habs] at hd
              exact absurd hd (by simp)
            have hcplus : c = '+' := by
              rcases h2 with h | h | h
              · exact absurd h hane
              · rw [strStartsC.eq_def, hd] at h
                simp only [decide_eq_true_eq] at h
                exact absurd h hc
              · rw [strStartsC.eq_def, hd] at h
                simp only [decide_eq_true_eq] at h
                exact h
            constructor
            · intro hh
              simp only [Option.some.injEq, decide_eq_true_eq] at hh
              refine ⟨by omega, hb, Or.inr ⟨?_, ?_, hh⟩⟩
              · rw [strStartsC.eq_def, hd]
                simp [hcplus]
              · rintro ⟨hpp, _⟩
                exact hp hpp
            · rintro ⟨_, _, hs | ⟨_, _, hno⟩⟩
              · rw [strStartsC.eq_def, hd] at hs
                simp only [decide_eq_true_eq] at hs
                exact absurd hs hc
              · simp only [Option.some.injEq, decide_eq_true_eq]
                exact hno

theorem foldl_max_spec (xs : List Int) : ∀ (x : Int),
    (xs.foldl max x = x ∨ xs.foldl max x ∈ xs) ∧ x ≤ xs.foldl max x ∧
      ∀ y ∈ xs, y ≤ xs.foldl max x := by
  induction xs with
  | nil => intro x; exact ⟨Or.inl rfl, le_refl x, by simp⟩
  | cons z zs ih =>
    intro x
    simp only [List.foldl_cons]
    obtain ⟨hm, hle, hub⟩ := ih (max x z)
    refine ⟨?_, le_trans (le_max_left x z) hle, ?_⟩
    · rcases hm with h | h
      · rcases max_choice x z with hc | hc
        · exact Or.inl (by rw [h, hc])
        · exact Or.inr (by rw [h, hc]; exact List.mem_cons_self z zs)
      · exact Or.inr (List.mem_cons_of_mem z h)
    · intro y hy
      rcases List.mem_cons.mp hy with rfl | hy2
      · exact le_trans (le_max_right x y) hle
      · exact hub y hy2

theorem foldl_min_spec (xs : List Int) : ∀ (x : Int),
    (xs.foldl min x = x ∨ xs.foldl min x ∈ xs) ∧ xs.foldl min x ≤ x ∧
      ∀ y ∈ xs, xs.foldl min x ≤ y := by
  induction xs with
  | nil => intro x; exact ⟨Or.inl rfl, le_refl x, by simp⟩
  | cons z zs ih =>
    intro x
    simp only [List.foldl_cons]
    obtain ⟨hm, hle, hlb⟩ := ih (min x z)
    refine ⟨?_, le_trans hle (min_le_left x z), ?_⟩
    · rcases hm with h | h
      · rcases min_choice x z with hc | hc
        · exact Or.inl (by rw [h, hc])
        · exact Or.inr (by rw [h, hc]; exact List.mem_cons_self z zs)
      · exact Or.inr (List.mem_cons_of_mem z h)
    · intro y hy
      rcases List.mem_cons.mp hy with rfl | hy2
      · exact le_trans hle (min_le_right x y)
      · exact hlb y hy2

/-- Claim C6: when the foreground group is resolvable and non-empty,
`get_pid_for_cwd` returns the maximum pid of the group by default and the
minimum pid when `oldest` is requested. -/
theorem get_pid_for_cwd_max_min (c : Child) (os : OSModel) (fd g x : Int) (xs : List Int)
    (hfd : c.child_fd = some fd) (hpg : os.tcgetpgrp fd = some g) (hge : 0 ≤ g)
    (hfp : processes_in_group os g = x :: xs) :
    (∃ M, c.get_pid_for_cwd os false = some M ∧ M ∈ x :: xs ∧ ∀ y ∈ x :: xs, y ≤ M) ∧
    (∃ m, c.get_pid_for_cwd os true = some m ∧ m ∈ x :: xs ∧ ∀ y ∈ x :: xs, m ≤ y) := by
  have hval : ∀ oldest : Bool, c.get_pid_for_cwd os oldest
      = some (if oldest then xs.foldl min x else xs.foldl max x) := by
    intro oldest
    rw [Child.get_pid_for_cwd, hfd]
    dsimp only
    rw [hpg]
    dsimp only
    rw [if_pos hge, hfp]
  constructor
  · obtain ⟨hm, hle, hub⟩ := foldl_max_spec xs x
    refine ⟨xs.foldl max x, by simpa using hval false, ?_, ?_⟩
    · rcases hm with h | h
      · rw [h]; exact List.mem_cons_self x xs
      · exact List.mem_cons_of_mem x h
    · intro y hy
      rcases List.mem_cons.mp hy with rfl | hy2
      · exact hle
      · exact hub y hy2
  · obtain ⟨hm, hle, hlb⟩ := foldl_min_spec xs x
    refine ⟨xs.foldl min x, by simpa using hval true, ?_, ?_⟩
    · rcases hm with h | h
      · rw [h]; exact List.mem_cons_self x xs
      · exact List.mem_cons_of_mem x h
    · intro y hy
      rcases List.mem_cons.mp hy with rfl | hy2
      · exact hle
      · exact hlb y hy2

theorem get_pid_for_cwd_max_min_witness :
    Child.get_pid_for_cwd cDemo6 osDemo6 false = some 150 ∧
    Child.get_pid_for_cwd cDemo6 osDemo6 true = some 99 ∧
    ((∃ M, Child.get_pid_for_cwd cDemo6 osDemo6 false = some M ∧ M ∈ [101, 150, 99] ∧
        ∀ y ∈ [101, 150, 99], y ≤ M) ∧
      (∃ m, Child.get_pid_for_cwd cDemo6 osDemo6 true = some m ∧ m ∈ [101, 150, 99] ∧
        ∀ y ∈ [101, 150, 99], m ≤ y)) :=
  ⟨by decide, by decide,
    get_pid_for_cwd_max_min cDemo6 osDemo6 1 5 101 [150, 99] rfl (by decide) (by decide)
      (by decide)⟩

/-- Claim C10: when the foreground group cannot be determined (no master fd,
`tcgetpgrp` raising, a negative group id) or the resolved group has no
member pids, `get_pid_for_cwd` falls back to the child's own pid (which is
`none` before a successful launch) without raising. -/
theorem get_pid_for_cwd_own_pid_fallback (c : Child) (os : OSModel) (oldest : Bool)
    (h : c.child_fd = none ∨
      (∃ fd, c.child_fd = some fd ∧ os.tcgetpgrp fd = none) ∨
      (∃ fd g, c.child_fd = some fd ∧ os.tcgetpgrp fd = some g ∧
        (g < 0 ∨ processes_in_group os g = []))) :
    c.get_pid_for_cwd os oldest = c.pid := by
  rcases h with h | ⟨fd, hfd, hpg⟩ | ⟨fd, g, hfd, hpg, hg⟩
  · rw [Child.get_pid_for_cwd, h]
  · rw [Child.get_pid_for_cwd, hfd]
    dsimp only
    rw [hpg]
  · rw [Child.get_pid_for_cwd, hfd]
    dsimp only
    rw [hpg]
    dsimp only
    rcases hg with hg | hg
    · rw [if_neg (not_le.mpr hg)]
    · by_cases hge : 0 ≤ g
      · rw [if_pos hge, hg]
      · rw [if_neg hge]

theorem get_pid_for_cwd_own_pid_fallback_witness :
    Child.get_pid_for_cwd cDemo10 osFail true = cDemo10.pid ∧ cDemo10.pid = none :=
  ⟨get_pid_for_cwd_own_pid_fallback cDemo10 osFail true (Or.inl rfl), rfl⟩

/-- Claim C9: when every underlying OS introspection call fails, the
accessors do not raise and return their documented fallbacks: `cmdline` the
originally requested argv, `environ` the empty mapping, `current_cwd`
nothing, and `foreground_processes` the empty list. -/
theorem introspection_fallbacks (c : Child) (os : OSModel)
    (h1 : ∀ p, os.cmdline_of_pid p = none)
    (h2 : ∀ p, os.environ_raw p = none)
    (h3 : ∀ p, os.cwd_of_process p = none)
    (h4 : ∀ fd, os.tcgetpgrp fd = none) :
    c.cmdline os = c.argv ∧ c.environ os = [] ∧ c.current_cwd os = none ∧
      c.foreground_processes os = [] := by
  refine ⟨?_, ?_, ?_, ?_⟩
  · rw [Child.cmdline.eq_def]
    cases hp : c.pid with
    | none => rfl
    | some pid =>
      have hm : c.cmdline_of_pid os pid = c.argv := by
        rw [Child.cmdline_of_pid.eq_def, h1]
        simp [hp]
      dsimp only
      rw [hm]
      split <;> rfl
  · rw [Child.environ.eq_def]
    cases hp : c.pid with
    | none => rfl
    | some pid =>
      dsimp only
      unfold environ_of_process
      rw [h2]
      rfl
  · rw [Child.current_cwd.eq_def]
    cases hp : c.pid with
    | none => rfl
    | some pid => exact h3 pid
  · rw [Child.foreground_processes.eq_def]
    cases hf : c.child_fd with
    | none => rfl
    | some fd =>
      dsimp only
      rw [h4]

theorem introspection_fallbacks_witness :
    Child.cmdline cDemo9 osFail = ["nvim", "file"] ∧ Child.environ cDemo9 osFail = [] ∧
      Child.current_cwd cDemo9 osFail = none ∧ Child.foreground_processes cDemo9 osFail = [] :=
  introspection_fallbacks cDemo9 osFail (fun _ => rfl) (fun _ => rfl) (fun _ => rfl)
    (fun _ => rfl)

theorem mem_dictPop {α : Type} [DecidableEq α] {β : Type} :
    ∀ {d : List (α × β)} {k : α} {x : α × β}, x ∈ dictPop d k → x ∈ d := by
  intro d
  induction d with
  | nil => intro k x hx; simp [dictPop] at hx
  | cons p rest ih =>
    intro k x hx
    simp only [dictPop] at hx
    split at hx
    · exact List.mem_cons_of_mem p hx
    · rcases List.mem_cons.mp hx with h1 | h2
      · exact h1 ▸ List.mem_cons_self p rest
      · exact List.mem_cons_of_mem p (ih h2)

/-- Claim C7: the environment returned by `final_env` never carries the
delete sentinel as a value — any layered variable valued with the sentinel
is filtered out — and in particular a default `FOO=1` overridden per-child
with the sentinel is absent from the result. -/
theorem final_env_no_delete :
    (∀ (c : Child) (p : Params) (k : String),
        dictGet (Child.final_env c p).1 k ≠ some EnvVal.del) ∧
    dictGet (Child.final_env cDemo7 pDemo).1 "FOO" = none := by
  refine ⟨?_, by decide⟩
  intro c p k habs
  have hmem := dictGet_mem habs
  rw [Child.final_env.eq_def] at hmem
  dsimp only at hmem
  split at hmem
  · rcases mem_dictInsert hmem with h1 | h2
    · simp at h1
    · have := List.mem_filter.mp h2
      simp at this
  · have h2 := mem_dictPop hmem
    have := List.mem_filter.mp h2
    simp at this

/-- Claim C8: with the terminal's ISIG bit off, `send_signal_for_key`
reports unhandled and delivers nothing; with ISIG on, a key equal to the
configured VINTR / VSUSP / VQUIT control character (the three being
distinct) makes exactly one delivery of SIGINT / SIGTSTP / SIGQUIT
respectively to the whole foreground process group and reports handled; a
key matching none of the three reports unhandled with no delivery. -/
theorem send_signal_for_key_behaviour (c : Child) (os : OSModel) (fd : Int)
    (t : TermiosState) (key : Nat) (pgrp : Int)
    (hfd : c.child_fd = some fd) (ht : c.tcgetattr_for_child os fd = some t)
    (hpg : os.tcgetpgrp fd = some pgrp)
    (hd1 : t.vintr ≠ t.vsusp) (hd2 : t.vintr ≠ t.vquit) (hd3 : t.vsusp ≠ t.vquit) :
    (t.lflag &&& ISIG = 0 → c.send_signal_for_key os key = some (false, [])) ∧
    (t.lflag &&& ISIG ≠ 0 →
      (key = t.vintr → c.send_signal_for_key os key = some (true, [(pgrp, SIGINT)])) ∧
      (key = t.vsusp → c.send_signal_for_key os key = some (true, [(pgrp, SIGTSTP)])) ∧
      (key = t.vquit → c.send_signal_for_key os key = some (true, [(pgrp, SIGQUIT)])) ∧
      (key ≠ t.vintr → key ≠ t.vsusp → key ≠ t.vquit →
        c.send_signal_for_key os key = some (false, []))) := by
  have hstep : c.send_signal_for_key os key
      = (if t.lflag &&& ISIG = 0 then some (false, [])
        else if key = t.vintr then (os.tcgetpgrp fd).map (fun p => (true, [(p, SIGINT)]))
        else if key = t.vsusp then (os.tcgetpgrp fd).map (fun p => (true, [(p, SIGTSTP)]))
        else if key = t.vquit then (os.tcgetpgrp fd).map (fun p => (true, [(p, SIGQUIT)]))
        else some (false, [])) := by
    rw [Child.send_signal_for_key.eq_def, hfd]
    dsimp only
    rw [ht]
  refine ⟨?_, ?_⟩
  · intro hz
    rw [hstep, if_pos hz]
  · intro hnz
    refine ⟨?_, ?_, ?_, ?_⟩
    · intro hkey
      rw [hstep, if_neg hnz, if_pos hkey, hpg]
      rfl
    · intro hkey
      rw [hstep, if_neg hnz, if_neg (fun hh => hd1 (hh.symm.trans hkey)), if_pos hkey, hpg]
      rfl
    · intro hkey
      rw [hstep, if_neg hnz, if_neg (fun hh => hd2 (hh.symm.trans hkey)),
        if_neg (fun hh => hd3 (hh.symm.trans hkey)), if_pos hkey, hpg]
      rfl
    · intro hk1 hk2 hk3
      rw [hstep, if_neg hnz, if_neg hk1, if_neg hk2, if_neg hk3]

theorem send_signal_for_key_witness :
    Child.send_signal_for_key cDemo8 osDemo8 3 = some (true, [(7, SIGINT)]) ∧
    Child.send_signal_for_key cDemo8 osDemo8 99 = some (false, []) :=
  ⟨((send_signal_for_key_behaviour cDemo8 osDemo8 2 tDemoOn 3 7 rfl (by decide) (by decide)
      (by decide) (by decide) (by decide)).2 (by decide)).1 rfl,
    ((send_signal_for_key_behaviour cDemo8 osDemo8 2 tDemoOn 99 7 rfl (by decide) (by decide)
      (by decide) (by decide) (by decide)).2 (by decide)).2.2.2 (by decide) (by decide)
      (by decide)⟩

theorem final_env_forked (c : Child) (p : Params) :
    (Child.final_env c p).2.forked = c.forked := by
  rw [Child.final_env.eq_def]
  dsimp only
  split <;> rfl

theorem forkFinish_forked (c : Child) (master slave pid : Int) (prew : Bool)
    (stdin_read stdin_write ready_read ready_write : Int)
    (stdin : Option String) (effs : List Eff) :
    (forkFinish c master slave pid prew stdin_read stdin_write ready_read ready_write
      stdin effs).2.1.forked = c.forked := by
  rw [forkFinish.eq_def]
  dsimp only
  split <;> rfl

theorem forkSpawnStage_forked (prew : Bool) (os : ForkOS) (master slave : Int)
    (stdin : Option String) (effs1 : List Eff)
    (ready_read ready_write stdin_read stdin_write : Int)
    (env : List String) (c4 : Child) :
    (forkSpawnStage prew os master slave stdin effs1 ready_read ready_write stdin_read
      stdin_write env c4).2.1.forked = c4.forked := by
  rw [forkSpawnStage.eq_def]
  split
  · rfl
  · dsimp only
    cases prew with
    | true =>
      rw [if_pos (Eq.refl true)]
      split
      · rw [final_env_forked]
      · rw [forkFinish_forked, final_env_forked]
    | false =>
      rw [if_neg (by simp)]
      split
      · rfl
      · rw [forkFinish_forked]

theorem forkBody_forked (c : Child) (os : ForkOS) :
    (Child.forkBody c os).2.1.forked = c.forked := by
  rw [Child.forkBody.eq_def]
  split
  · rfl
  · dsimp only
    split
    · rfl
    · rename_i prew hpw
      rw [forkSpawnStage_forked]
      cases prew with
      | true =>
        rw [if_pos (Eq.refl true)]
      | false =>
        rw [if_neg (by simp)]
        rw [final_env_forked]

/-- Claim C1: after a first `fork` call on a fresh `Child` — whether that
call returned a pid or raised — the child is marked `forked`, and a second
`fork` call returns `None`, leaves every field (in particular `pid` and
`child_fd`) unchanged, and performs no OS side effect: no second PTY
allocation, environment construction, or spawn. -/
theorem fork_second_call_noop (c : Child) (os1 os2 : ForkOS) (h : c.forked = false) :
    (Child.fork c os1).2.1.forked = true ∧
    Child.fork (Child.fork c os1).2.1 os2
      = (Except.ok none, (Child.fork c os1).2.1, []) := by
  have h1 : (Child.fork c os1).2.1.forked = true := by
    rw [Child.fork.eq_def, if_neg (by simp [h]), forkBody_forked]
  refine ⟨h1, ?_⟩
  rw [Child.fork.eq_def, if_pos h1]

theorem fork_second_call_noop_witness :
    cDemo1.forked = false ∧
    ((Child.fork cDemo1 osDemo1).2.1.forked = true ∧
      Child.fork (Child.fork cDemo1 osDemo1).2.1 osDemo1
        = (Except.ok none, (Child.fork cDemo1 osDemo1).2.1, [])) :=
  ⟨rfl, fork_second_call_noop cDemo1 osDemo1 osDemo1 rfl⟩
